import Mathlib

/-!
Verification of the lantern_extras staged pipeline:

* `lantern_pq/src/compression.rs` — nearest-centroid product quantization,
  task/worker range partitioning, connection-budget arithmetic;
* `lantern_cli/src/embeddings/mod.rs` — the embedding pipeline: producer,
  embedding worker, database/CSV exporters and progress reporting.

Modelling conventions:

* `f32`/`f64` values are modelled as exact rationals (`ℚ`); the comparison
  structure of the numeric search is preserved, and all concrete evaluations
  below use values where the floating-point computation is exact.
* `usize` arithmetic is modelled on `ℕ`; where Rust release builds wrap on
  underflow, the wrap is written explicitly as arithmetic modulo `2 ^ 64`.
* A Rust `panic!` site (index out of bounds on an empty `Vec`) is modelled by
  an `Option` result, `none` standing for the panic.
* Database I/O is abstracted away: the functions below take the fetched rows /
  query results as arguments and return the values the Rust code computes from
  them.
-/

/-! ## Product quantization (lantern_pq/src/compression.rs) -/

/-- `l2sq_dist` (compression.rs lines 16-21): squared Euclidean distance,
a fold of squared coordinate differences over the zip of the two vectors
(the zip truncates to the shorter vector, as Rust's `zip` does). -/
def l2sq_dist (a b : List ℚ) : ℚ :=
  (a.zip b).foldl (fun acc p => acc + (p.1 - p.2) * (p.1 - p.2)) 0

/-- The loop body of `get_closest_centroid` (compression.rs lines 28-34):
iterate over the enumerated centroids, keeping the pair
`(closest_distance, closest_index)`.  The initial `closest_distance` is
`f32::MAX`, modelled by `none` (no finite distance beats it, so the first
centroid always replaces it); `closest_index = idx as u8` is the truncating
cast, modelled by `% 256`. -/
def selectLoop (subvector : List ℚ) :
    (Option ℚ × ℕ) → List (ℕ × List ℚ) → (Option ℚ × ℕ)
  | best, [] => best
  | best, (idx, centroid) :: rest =>
    let distance := l2sq_dist centroid subvector
    match best.1 with
    | none => selectLoop subvector (some distance, idx % 256) rest
    | some closest_distance =>
      if distance < closest_distance then
        selectLoop subvector (some distance, idx % 256) rest
      else
        selectLoop subvector best rest

/-- `get_closest_centroid` (compression.rs lines 24-37): the index (as a
truncated byte) of the first centroid attaining the minimal squared distance
to `subvector`; `0` when the centroid list is empty. -/
def get_closest_centroid (centroids : List (List ℚ)) (subvector : List ℚ) : ℕ :=
  (selectLoop subvector (none, 0) centroids.enum).2

/-- `DatasetItem` from lantern_pq: a row id together with its vector. -/
structure DatasetItem where
  id : String
  vec : List ℚ
deriving Repr, DecidableEq

/-- `compress_vectors` (compression.rs lines 43-78): for each dataset item,
for each split `i < splits`, quantize the sub-vector
`vec[i*subvector_dim .. min(i*subvector_dim + subvector_dim, vector_dim)]`
against the codebook of segment `i`.  The source's `Result` is always `Ok`,
and the rayon parallel map keeps the dataset order, so the model returns the
plain list. -/
def compress_vectors (dataset : List DatasetItem) (vector_dim subvector_dim splits : ℕ)
    (codebooks_hashmap : ℕ → List (List ℚ)) : List (String × List ℕ) :=
  dataset.map fun x =>
    (x.id,
      (List.range splits).map fun i =>
        let split_centroids := codebooks_hashmap i
        let start_index := i * subvector_dim
        let end_index := min (start_index + subvector_dim) vector_dim
        get_closest_centroid split_centroids ((x.vec.take end_index).drop start_index))

/-! ## Range partitioning (compression.rs, compress_and_write_vectors) -/

/-- Membership of a key in a half-open work range. -/
abbrev inWorkRange (r : ℕ × ℕ) (k : ℕ) : Prop := r.1 ≤ k ∧ k < r.2

/-- Per-task sub-range (compression.rs lines 185-194):
`chunk_per_task = limit_end / task_count`,
`limit_start = chunk_per_task * task_id`, and the last task absorbs the
remainder (`limit_end` stays `total_row_cnt`). -/
def taskRange (total_row_cnt task_count task_id : ℕ) : ℕ × ℕ :=
  let chunk_per_task := total_row_cnt / task_count
  let limit_start := chunk_per_task * task_id
  let limit_end :=
    if task_id = task_count - 1 then total_row_cnt else limit_start + chunk_per_task
  (limit_start, limit_end)

/-- The list of all per-task sub-ranges for task ids `0 .. task_count - 1`. -/
def taskRanges (total_row_cnt task_count : ℕ) : List (ℕ × ℕ) :=
  (List.range task_count).map (taskRange total_row_cnt task_count)

/-- Per-worker key ranges (compression.rs lines 262, 272-273):
`chunk_count = (limit_end - limit_start) / num_connections`,
`range_start = limit_start + i * chunk_count`, and
`range_end = if i == num_cores - 1 { limit_end + 1 } else { range_start + chunk_count }`.
Note that the source compares `i` against `num_cores - 1`, not
`num_connections - 1`, and uses `limit_end + 1`. -/
def workerRanges (num_cores num_connections limit_start limit_end : ℕ) : List (ℕ × ℕ) :=
  let chunk_count := (limit_end - limit_start) / num_connections
  (List.range num_connections).map fun i =>
    (limit_start + i * chunk_count,
      if i = num_cores - 1 then limit_end + 1 else limit_start + i * chunk_count + chunk_count)

/-! ## Connection budget (compression.rs lines 246-261) -/

/-- The modulus of `usize` arithmetic. -/
def USIZE : ℕ := 2 ^ 64

/-- `usize` subtraction with release-mode wrap-around on underflow,
written as arithmetic modulo `2 ^ 64` (inputs are `usize` values, hence
below the modulus). -/
def usize_sub (a b : ℕ) : ℕ := (a + USIZE - b) % USIZE

/-- Connection budget in the externally partitioned (batch) case
(compression.rs line 252): `min(num_cores, (max_connections - 2) / parallel_task_count)`. -/
def num_connections_batch (num_cores max_connections parallel_task_count : ℕ) : ℕ :=
  min num_cores (usize_sub max_connections 2 / parallel_task_count)

/-- Connection budget in the single-task case (compression.rs line 257):
`min(num_cores, max_connections - active_connections)`. -/
def num_connections_single (num_cores max_connections active_connections : ℕ) : ℕ :=
  min num_cores (usize_sub max_connections active_connections)

/-- The final worker count (compression.rs line 261):
`num_connections = cmp::max(num_connections, 1)`. -/
def worker_count (num_connections : ℕ) : ℕ := max num_connections 1

/-! ## Compression worker body (compression.rs lines 289-315) -/

/-- The row-handling portion of one compression worker: filter out rows whose
payload is NULL (compression.rs lines 289-306), then read
`vector_dim = rows[0].vec.len()` (line 307) and compress.  Indexing `rows[0]`
on an empty vector is a Rust panic, modelled by `none`. -/
def compress_worker_process (fetched : List (String × Option (List ℚ)))
    (subvector_dim splits : ℕ) (codebooks : ℕ → List (List ℚ)) :
    Option (List (String × List ℕ)) :=
  let rows := fetched.filterMap fun r =>
    match r.2 with
    | some v => some ⟨r.1, v⟩
    | none => none
  match rows with
  | [] => none
  | r0 :: rest =>
    some (compress_vectors (r0 :: rest) r0.vec.length subvector_dim splits codebooks)

/-- A one-segment, one-centroid codebook used for concrete evaluations. -/
def cbTrivial : ℕ → List (List ℚ) := fun _ => [[0]]

/-! ## Embedding pipeline (lantern_cli/src/embeddings/mod.rs) -/

/-- The `EmbeddingRecord` type alias (mod.rs line 19): a row id (ctid text)
with its embedding vector. -/
abbrev EmbeddingRecord := String × List ℚ

/-- `calculate_progress` (mod.rs lines 24-30): `0` when `total <= 0`, else
`((processed as f64 / total as f64) * 100.0) as u8`.  The `f64` arithmetic is
modelled exactly (`processed * 100 / total`, floored), and the `as u8` cast
saturates at `255` (it never sees negative values here). -/
def calculate_progress (total : ℤ) (processed : ℕ) : ℕ :=
  if total ≤ 0 then 0
  else min 255 (processed * 100 / total.toNat)

/-- One iteration of the receive loop of `db_exporter_worker`
(mod.rs lines 303-330), restricted to the state the claims are about:
`(processed_row_cnt, old_progress, progress-callback values so far)`.
The callback fires only when the new progress strictly exceeds
`old_progress`. -/
def db_exporter_step (item_count : ℤ) (st : ℕ × ℕ × List ℕ)
    (rows : List EmbeddingRecord) : ℕ × ℕ × List ℕ :=
  let processed_row_cnt := st.1 + rows.length
  let progress := calculate_progress item_count processed_row_cnt
  if st.2.1 < progress then (processed_row_cnt, progress, st.2.2 ++ [progress])
  else (processed_row_cnt, st.2.1, st.2.2)

/-- `db_exporter_worker` over a whole job (mod.rs lines 298-386): fold the
receive loop over the incoming batches, then fire the final `cb(100)` iff
`old_progress != 100` (lines 366-372), and return the processed row count
(returned both by the early `processed_row_cnt == 0` exit and the normal
exit). Result: `(processed_row_cnt, progress-callback value sequence)`. -/
def db_exporter_run (item_count : ℤ) (batches : List (List EmbeddingRecord)) :
    ℕ × List ℕ :=
  let st := batches.foldl (db_exporter_step item_count) (0, 0, [])
  let calls := if st.2.1 ≠ 100 then st.2.2 ++ [100] else st.2.2
  (st.1, calls)

/-- The count returned by `csv_exporter_worker` (mod.rs lines 397-419): for
each received batch, the per-row loop writes one record and then executes
`processed_row_cnt += rows.len()` once per row (line 413). -/
def csv_exporter_processed (batches : List (List EmbeddingRecord)) : ℕ :=
  batches.foldl (fun cnt rows => rows.foldl (fun c _ => c + rows.length) cnt) 0

/-- The number of records `csv_exporter_worker` actually writes to the file:
one `write_record` call per row of each batch (mod.rs line 411). -/
def csv_records_written (batches : List (List EmbeddingRecord)) : ℕ :=
  batches.foldl (fun cnt rows => cnt + rows.length) 0

/-! ## Producer count phase and orchestrator join (mod.rs) -/

/-- The count-estimate phase of `producer_worker` (mod.rs lines 80-103):
when `estimate_count` is set and the COUNT query fails, the thread sends `0`
over the count channel and then `bail!`s; on success it sends the count and
continues.  Result: `(value sent over the count channel, stage outcome)`. -/
def producer_count_phase (estimate_count : Bool) (count_query : Except String ℤ) :
    ℤ × Except String Unit :=
  if estimate_count then
    match count_query with
    | Except.error e => (0, Except.error e)
    | Except.ok count => (count, Except.ok ())
  else (0, Except.ok ())

/-- The join order of `create_embeddings_from_db` (mod.rs lines 511-544):
the producer handle is joined first and any error aborts the job; then the
embedding worker, then the exporter.  On success the job returns
`(processed_rows, processed_tokens)`. -/
def create_embeddings_join (producer : Except String Unit)
    (embedding : Except String ℕ) (exporter : Except String ℕ) :
    Except String (ℕ × ℕ) :=
  match producer with
  | Except.error e => Except.error e
  | Except.ok _ =>
    match embedding with
    | Except.error e => Except.error e
    | Except.ok processed_tokens =>
      match exporter with
      | Except.error e => Except.error e
      | Except.ok processed_rows => Except.ok (processed_rows, processed_tokens)

/-! ## Embedding worker batch processing (mod.rs lines 173-220) -/

/-- The payload filter of `embedding_worker` (mod.rs lines 177-178): a row is
submitted iff its payload is non-null and `src_data.trim() != ""`.  A string
trims to something non-empty exactly when it contains a non-whitespace
character, which is how the check is written here (Lean's `String.trim` is
not kernel-reducible). -/
def nonblank (src_data : String) : Bool := src_data.data.any fun c => !c.isWhitespace

/-- The filtering loop of `embedding_worker` (mod.rs lines 173-183): build
`input_vectors` (the submitted texts) and `input_ids`, pushed in input
order. -/
def collectInputs (rows : List (String × Option String)) : List String × List String :=
  rows.foldl
    (fun acc row =>
      match row.2 with
      | some src_data =>
        if nonblank src_data then (acc.1 ++ [src_data], acc.2 ++ [row.1]) else acc
      | none => acc)
    ([], [])

/-- The re-pairing loop of `embedding_worker` (mod.rs lines 213-215):
`for _ in 0..embeddings.len()` push
`(input_ids.pop().unwrap(), embeddings.pop().unwrap())`.  `Vec::pop` takes
from the back; `unwrap` of an empty pop is a panic, modelled by `none`. -/
def popPairs : ℕ → List String → List (List ℚ) → List EmbeddingRecord →
    Option (List EmbeddingRecord)
  | 0, _, _, response_data => some response_data
  | n + 1, input_ids, embeddings, response_data =>
    match input_ids.getLast?, embeddings.getLast? with
    | some i, some e =>
      popPairs n input_ids.dropLast embeddings.dropLast (response_data ++ [(i, e)])
    | _, _ => none

/-- One batch iteration of `embedding_worker` (mod.rs lines 173-220), given
the vectors the model runtime returned for the submitted texts: when nothing
was submitted the batch is skipped (`continue`, so no records and no model
call); otherwise the records are built by the pop loop. -/
def embedding_worker_batch (rows : List (String × Option String))
    (embeddings : List (List ℚ)) : Option (List EmbeddingRecord) :=
  let inputs := collectInputs rows
  if inputs.1.length = 0 then some []
  else popPairs embeddings.length inputs.2 embeddings []

/-! ## Concrete data used by witnesses and counterexamples -/

/-- The sub-vector of segment `i`: `vec[i*subvector_dim .. min((i+1)*subvector_dim, vector_dim)]`,
exactly the slice taken in `compress_vectors`. -/
def subvector_slice (vec : List ℚ) (vector_dim subvector_dim i : ℕ) : List ℚ :=
  (vec.take (min (i * subvector_dim + subvector_dim) vector_dim)).drop (i * subvector_dim)

/-- A single-segment codebook with 257 centroids `[0], [1], ..., [256]`. -/
def codebook257 : ℕ → List (List ℚ) := fun _ => (List.range 257).map fun j : ℕ => [(j : ℚ)]

/-- A single-segment codebook with two one-dimensional centroids. -/
def cbPair : ℕ → List (List ℚ) := fun _ => [[(0 : ℚ)], [(1 : ℚ)]]

/-- A one-row dataset item with a one-dimensional vector. -/
def itemA : DatasetItem := ⟨"a", [(0 : ℚ)]⟩

/-- A codebook with 4 centroids of dimension 4 in every segment. -/
def cbB : ℕ → List (List ℚ) :=
  fun _ => [[(0 : ℚ), 0, 0, 0], [(1 : ℚ), 1, 1, 1], [(2 : ℚ), 2, 2, 2], [(3 : ℚ), 3, 3, 3]]

/-- A one-row dataset item with an 8-dimensional vector. -/
def itemB : DatasetItem := ⟨"b", [(0 : ℚ), 0, 0, 0, 1, 1, 1, 1]⟩

/-- A four-row batch: two non-blank payloads, one NULL, one whitespace-only. -/
def rowsW : List (String × Option String) :=
  [("1", some "hello"), ("2", none), ("3", some " "), ("4", some "world")]

/-! ## Theorems -/

/-- C3: for every `total_row_cnt` and `task_count ≥ 1`, the per-task ranges
`[limit_start, limit_end)` for task ids `0 .. task_count - 1` are pairwise
disjoint and their union is exactly `[0, total_row_cnt)`, the last task
absorbing the division remainder; in particular `task_count = 3`,
`total_row_cnt = 100` yields `[0,33), [33,66), [66,100)`. -/
theorem taskRange_partition (total_row_cnt task_count : ℕ) (h : 1 ≤ task_count) :
    (∀ k, (∃ i, i < task_count ∧ inWorkRange (taskRange total_row_cnt task_count i) k)
        ↔ k < total_row_cnt)
    ∧ (∀ i j k, i < task_count → j < task_count →
        inWorkRange (taskRange total_row_cnt task_count i) k →
        inWorkRange (taskRange total_row_cnt task_count j) k → i = j)
    ∧ taskRanges 100 3 = [(0, 33), (33, 66), (66, 100)] := by
  have hstart : ∀ i, (taskRange total_row_cnt task_count i).1
      = total_row_cnt / task_count * i := fun i => rfl
  have hend_last : (taskRange total_row_cnt task_count (task_count - 1)).2
      = total_row_cnt := by simp [taskRange]
  have hend_ne : ∀ i, i ≠ task_count - 1 →
      (taskRange total_row_cnt task_count i).2
        = total_row_cnt / task_count * i + total_row_cnt / task_count := by
    intro i hi; simp [taskRange, hi]
  have hdivmul : total_row_cnt / task_count * task_count ≤ total_row_cnt :=
    Nat.div_mul_le_self total_row_cnt task_count
  have hend_le : ∀ i, i < task_count →
      (taskRange total_row_cnt task_count i).2 ≤ total_row_cnt := by
    intro i hi
    by_cases hlast : i = task_count - 1
    · rw [hlast, hend_last]
    · rw [hend_ne i hlast]
      have h1 : i + 1 ≤ task_count := hi
      have h2 : total_row_cnt / task_count * (i + 1)
          ≤ total_row_cnt / task_count * task_count :=
        Nat.mul_le_mul_left _ h1
      have h4 : total_row_cnt / task_count * (i + 1)
          = total_row_cnt / task_count * i + total_row_cnt / task_count := by ring
      omega
  have hend_le_start : ∀ i j, i < j → j < task_count →
      (taskRange total_row_cnt task_count i).2
        ≤ (taskRange total_row_cnt task_count j).1 := by
    intro i j hij hj
    have hine : i ≠ task_count - 1 := by omega
    rw [hend_ne i hine, hstart j]
    have h2 : total_row_cnt / task_count * (i + 1) ≤ total_row_cnt / task_count * j :=
      Nat.mul_le_mul_left _ (by omega)
    have h4 : total_row_cnt / task_count * (i + 1)
        = total_row_cnt / task_count * i + total_row_cnt / task_count := by ring
    omega
  refine ⟨?_, ?_, by decide⟩
  · intro k
    constructor
    · rintro ⟨i, hi, _, h2⟩
      exact lt_of_lt_of_le h2 (hend_le i hi)
    · intro hk
      by_cases hc0 : total_row_cnt / task_count = 0
      · refine ⟨task_count - 1, by omega, ?_, ?_⟩
        · rw [hstart, hc0]; omega
        · rw [hend_last]; exact hk
      · have hc1 : 0 < total_row_cnt / task_count := Nat.pos_of_ne_zero hc0
        by_cases hq : k / (total_row_cnt / task_count) < task_count - 1
        · refine ⟨k / (total_row_cnt / task_count), by omega, ?_, ?_⟩
          · rw [hstart]
            exact Nat.mul_div_le k (total_row_cnt / task_count)
          · rw [hend_ne _ (by omega)]
            have hmod := Nat.div_add_mod k (total_row_cnt / task_count)
            have hlt : k % (total_row_cnt / task_count) < total_row_cnt / task_count :=
              Nat.mod_lt _ hc1
            omega
        · refine ⟨task_count - 1, by omega, ?_, ?_⟩
          · rw [hstart]
            have h1 : total_row_cnt / task_count * (task_count - 1)
                ≤ total_row_cnt / task_count * (k / (total_row_cnt / task_count)) :=
              Nat.mul_le_mul_left _ (by omega)
            have h2 : total_row_cnt / task_count * (k / (total_row_cnt / task_count)) ≤ k :=
              Nat.mul_div_le k (total_row_cnt / task_count)
            omega
          · rw [hend_last]; exact hk
  · intro i j k hi hj hik hjk
    rcases Nat.lt_trichotomy i j with hij | rfl | hji
    · rcases hik with ⟨_, h2⟩; rcases hjk with ⟨h3, _⟩
      have := hend_le_start i j hij hj
      omega
    · rfl
    · rcases hik with ⟨h1, _⟩; rcases hjk with ⟨_, h4⟩
      have := hend_le_start j i hji hi
      omega

/-- Witness for C3 at `total_row_cnt = 100`, `task_count = 3`. -/
theorem taskRange_partition_witness :
    1 ≤ 3
    ∧ ((∀ k, (∃ i, i < 3 ∧ inWorkRange (taskRange 100 3 i) k) ↔ k < 100)
      ∧ (∀ i j k, i < 3 → j < 3 → inWorkRange (taskRange 100 3 i) k →
          inWorkRange (taskRange 100 3 j) k → i = j)
      ∧ taskRanges 100 3 = [(0, 33), (33, 66), (66, 100)]) :=
  ⟨by decide, taskRange_partition 100 3 (by decide)⟩

/-- C1: the per-worker key ranges are NOT a disjoint cover of the task's
sub-range.  With `num_cores = num_connections = 2` over sub-range `[0, 100)`
the last worker's range is `[50, 101)`, which claims key `100` outside the
sub-range (the source uses `limit_end + 1`).  With `num_cores = 4`,
`num_connections = 2` over `[0, 101)` no worker's test `i == num_cores - 1`
fires, so key `100` of the sub-range is claimed by no worker. -/
theorem workerRanges_not_partition :
    (workerRanges 2 2 0 100 = [(0, 50), (50, 101)]
      ∧ inWorkRange (50, 101) 100 ∧ ¬ (100 : ℕ) < 100)
    ∧ (workerRanges 4 2 0 101 = [(0, 50), (50, 100)]
      ∧ (100 : ℕ) < 101 ∧ ∀ r ∈ workerRanges 4 2 0 101, ¬ inWorkRange r 100) := by
  decide

/-- C10: the connection-budget computation yields a worker count of at least
`1` for every `max_connections`, every observed active-connection count and
every `task_count ≥ 1` — including the underflow cases (`max_connections < 2`,
or active connections exceeding `max_connections`), where the release-mode
`usize` subtraction wraps modulo `2 ^ 64` and the final `max(_, 1)` still
guards the result. -/
theorem worker_count_at_least_one (num_cores max_connections task_count active : ℕ)
    (_h : 1 ≤ task_count) :
    1 ≤ worker_count (num_connections_batch num_cores max_connections task_count)
    ∧ 1 ≤ worker_count (num_connections_single num_cores max_connections active) :=
  ⟨le_max_right _ 1, le_max_right _ 1⟩

/-- Witness for C10 at both underflow cases: `max_connections = 1 < 2` in the
batch branch, and `active = 7 > max_connections = 1` in the single branch. -/
theorem worker_count_at_least_one_witness :
    1 ≤ 1
    ∧ (1 ≤ worker_count (num_connections_batch 4 1 1)
      ∧ 1 ≤ worker_count (num_connections_single 4 1 7)) :=
  ⟨by decide, worker_count_at_least_one 4 1 1 7 (by decide)⟩

/-- C4: the progress-callback sequence of the database exporter is NOT always
within `[0, 100]` and non-decreasing.  With an estimated total of `1` and a
single batch of `2` processed rows, `calculate_progress` evaluates
`(2 / 1) * 100.0 as u8 = 200`, the callback receives `200`, and the forced
final call then delivers `100` — a value above `100` followed by a
decrease. -/
theorem db_exporter_progress_violation :
    (db_exporter_run 1 [[("a", []), ("b", [])]]).2 = [200, 100]
    ∧ ¬ (∀ v ∈ (db_exporter_run 1 [[("a", []), ("b", [])]]).2, v ≤ 100)
    ∧ ¬ List.Chain' (fun a b => a ≤ b) (db_exporter_run 1 [[("a", []), ("b", [])]]).2 := by
  refine ⟨by decide, by decide, ?_⟩
  intro hch
  have h : (db_exporter_run 1 [[("a", []), ("b", [])]]).2 = [200, 100] := by decide
  rw [h] at hch
  rcases List.chain'_cons.mp hch with ⟨hle, _⟩
  omega

/-- C5 counterexample: when the count-estimate query fails, the producer
sends `0` over the count channel and then fails with the query error; the
orchestrator joins the producer first and aborts the job with that error —
the job IS aborted, contradicting the claim that the pipeline proceeds. -/
theorem count_query_failure_aborts_job :
    producer_count_phase true (Except.error "count failed")
      = (0, Except.error "count failed")
    ∧ create_embeddings_join (Except.error "count failed") (Except.ok 0) (Except.ok 0)
      = Except.error "count failed" :=
  ⟨rfl, rfl⟩

/-- C5 amended: if the count-estimate query fails, the total is reported as
`0` to the caller (so the synchronous count handshake is not blocked), but
the producer stage then aborts with the query error and the job fails with
it; rows are not streamed. -/
theorem count_query_failure_reports_zero_then_fails (e : String)
    (embedding : Except String ℕ) (exporter : Except String ℕ) :
    producer_count_phase true (Except.error e) = (0, Except.error e)
    ∧ create_embeddings_join (Except.error e) embedding exporter = Except.error e :=
  ⟨rfl, rfl⟩

/-- C6: on zero incoming batches the database exporter does return a
processed count of `0` (with the forced terminal `100` report), but a
compression worker whose range holds zero rows with non-NULL payload does NOT
complete: it evaluates `rows[0].vec.len()` on an empty vector, which is an
out-of-bounds panic (modelled by `none`). -/
theorem empty_input_outcomes :
    db_exporter_run 5 [] = (0, [100])
    ∧ compress_worker_process [] 1 1 cbTrivial = none := by
  exact ⟨by decide, rfl⟩

/-- C9: the CSV exporter's returned count is NOT the number of records it
wrote.  The increment `processed_row_cnt += rows.len()` sits inside the
per-row loop, so one batch of `2` records yields a returned count of `4`
while exactly `2` records are written. -/
theorem csv_processed_count_wrong :
    csv_exporter_processed [[("a", []), ("b", [])]] = 4
    ∧ csv_records_written [[("a", []), ("b", [])]] = 2
    ∧ csv_exporter_processed [[("a", []), ("b", [])]]
      ≠ csv_records_written [[("a", []), ("b", [])]] := by
  decide

/-- Folding squared differences never decreases the accumulator. -/
lemma l2sq_foldl_le (l : List (ℚ × ℚ)) :
    ∀ acc : ℚ, acc ≤ l.foldl (fun a p => a + (p.1 - p.2) * (p.1 - p.2)) acc := by
  induction l with
  | nil => intro acc; exact le_refl _
  | cons p l ih =>
    intro acc
    have h1 : acc ≤ acc + (p.1 - p.2) * (p.1 - p.2) := by nlinarith [mul_self_nonneg (p.1 - p.2)]
    exact le_trans h1 (ih _)

/-- Squared Euclidean distance is non-negative. -/
lemma l2sq_dist_nonneg (a b : List ℚ) : 0 ≤ l2sq_dist a b := l2sq_foldl_le _ 0

/-- Squared distance of one-dimensional vectors. -/
lemma l2sq_dist_single (a b : ℚ) : l2sq_dist [a] [b] = (a - b) * (a - b) := by
  simp [l2sq_dist]

/-- Dichotomy for the centroid loop over an enumerated tail: either no
centroid beats the incoming best distance and the state is returned
unchanged, or the loop returns the first centroid attaining the strict
minimum, with its enumerated index truncated modulo 256. -/
lemma selectLoop_enumFrom_spec (v : List ℚ) (cs : List (List ℚ)) :
    ∀ (k : ℕ) (bd : ℚ) (bi : ℕ),
    (selectLoop v (some bd, bi) (List.enumFrom k cs) = (some bd, bi)
      ∧ ∀ c ∈ cs, bd ≤ l2sq_dist c v)
    ∨ (∃ j : Fin cs.length,
        selectLoop v (some bd, bi) (List.enumFrom k cs)
          = (some (l2sq_dist (cs.get j) v), (k + j.val) % 256)
        ∧ l2sq_dist (cs.get j) v < bd
        ∧ (∀ i : Fin cs.length, l2sq_dist (cs.get j) v ≤ l2sq_dist (cs.get i) v)
        ∧ (∀ i : Fin cs.length, i.val < j.val →
            l2sq_dist (cs.get j) v < l2sq_dist (cs.get i) v)) := by
  induction cs with
  | nil =>
    intro k bd bi
    left
    exact ⟨rfl, by simp⟩
  | cons c cs ih =>
    intro k bd bi
    have hunfold : selectLoop v (some bd, bi) (List.enumFrom k (c :: cs))
        = if l2sq_dist c v < bd then
            selectLoop v (some (l2sq_dist c v), k % 256) (List.enumFrom (k + 1) cs)
          else
            selectLoop v (some bd, bi) (List.enumFrom (k + 1) cs) := rfl
    rw [hunfold]
    by_cases hcmp : l2sq_dist c v < bd
    · rw [if_pos hcmp]
      rcases ih (k + 1) (l2sq_dist c v) (k % 256) with ⟨heq, hall⟩ | ⟨j, heq, hlt, hmin, hleast⟩
      · right
        refine ⟨⟨0, Nat.succ_pos _⟩, ?_, hcmp, ?_, ?_⟩
        · exact heq
        · intro i
          rcases i with ⟨iv, hiv⟩
          cases iv with
          | zero => exact le_refl _
          | succ m =>
            exact hall _ (List.get_mem cs m (Nat.lt_of_succ_lt_succ hiv))
        · intro i hi
          exact absurd hi (Nat.not_lt_zero _)
      · right
        refine ⟨⟨j.val + 1, Nat.succ_lt_succ j.isLt⟩, ?_, lt_trans hlt hcmp, ?_, ?_⟩
        · have harith : k + 1 + j.val = k + (j.val + 1) := by omega
          rw [harith] at heq
          exact heq
        · intro i
          rcases i with ⟨iv, hiv⟩
          cases iv with
          | zero => exact le_of_lt hlt
          | succ m => exact hmin ⟨m, Nat.lt_of_succ_lt_succ hiv⟩
        · intro i hi
          rcases i with ⟨iv, hiv⟩
          cases iv with
          | zero => exact hlt
          | succ m => exact hleast ⟨m, Nat.lt_of_succ_lt_succ hiv⟩ (Nat.lt_of_succ_lt_succ hi)
    · rw [if_neg hcmp]
      rcases ih (k + 1) bd bi with ⟨heq, hall⟩ | ⟨j, heq, hlt, hmin, hleast⟩
      · left
        refine ⟨heq, ?_⟩
        intro c' hc'
        rcases List.mem_cons.mp hc' with rfl | hmem
        · exact le_of_not_lt hcmp
        · exact hall c' hmem
      · right
        refine ⟨⟨j.val + 1, Nat.succ_lt_succ j.isLt⟩, ?_, hlt, ?_, ?_⟩
        · have harith : k + 1 + j.val = k + (j.val + 1) := by omega
          rw [harith] at heq
          exact heq
        · intro i
          rcases i with ⟨iv, hiv⟩
          cases iv with
          | zero => exact le_trans (le_of_lt hlt) (le_of_not_lt hcmp)
          | succ m => exact hmin ⟨m, Nat.lt_of_succ_lt_succ hiv⟩
        · intro i hi
          rcases i with ⟨iv, hiv⟩
          cases iv with
          | zero => exact lt_of_lt_of_le hlt (le_of_not_lt hcmp)
          | succ m => exact hleast ⟨m, Nat.lt_of_succ_lt_succ hiv⟩ (Nat.lt_of_succ_lt_succ hi)

/-- `get_closest_centroid` on a non-empty centroid list returns, modulo 256,
the index of a distance-minimal centroid, and it is the least such index
(ties are broken towards the first-seen centroid by the strict `<` test). -/
theorem get_closest_centroid_argmin (centroids : List (List ℚ)) (subvector : List ℚ)
    (hne : centroids ≠ []) :
    ∃ j : Fin centroids.length,
      get_closest_centroid centroids subvector = j.val % 256
      ∧ (∀ i : Fin centroids.length,
          l2sq_dist (centroids.get j) subvector ≤ l2sq_dist (centroids.get i) subvector)
      ∧ (∀ i : Fin centroids.length, i.val < j.val →
          l2sq_dist (centroids.get j) subvector < l2sq_dist (centroids.get i) subvector) := by
  rcases centroids with _ | ⟨c, cs⟩
  · exact absurd rfl hne
  · have h0 : get_closest_centroid (c :: cs) subvector
        = (selectLoop subvector (some (l2sq_dist c subvector), 0 % 256)
            (List.enumFrom 1 cs)).2 := rfl
    rcases selectLoop_enumFrom_spec subvector cs 1 (l2sq_dist c subvector) (0 % 256)
      with ⟨heq, hall⟩ | ⟨j, heq, hlt, hmin, hleast⟩
    · refine ⟨⟨0, Nat.succ_pos _⟩, ?_, ?_, ?_⟩
      · rw [h0, heq]
      · intro i
        rcases i with ⟨iv, hiv⟩
        cases iv with
        | zero => exact le_refl _
        | succ m => exact hall _ (List.get_mem cs m (Nat.lt_of_succ_lt_succ hiv))
      · intro i hi
        exact absurd hi (Nat.not_lt_zero _)
    · refine ⟨⟨j.val + 1, Nat.succ_lt_succ j.isLt⟩, ?_, ?_, ?_⟩
      · rw [h0, heq]
        have harith : 1 + j.val = j.val + 1 := by omega
        rw [harith]
      · intro i
        rcases i with ⟨iv, hiv⟩
        cases iv with
        | zero => exact le_of_lt hlt
        | succ m => exact hmin ⟨m, Nat.lt_of_succ_lt_succ hiv⟩
      · intro i hi
        rcases i with ⟨iv, hiv⟩
        cases iv with
        | zero => exact hlt
        | succ m => exact hleast ⟨m, Nat.lt_of_succ_lt_succ hiv⟩ (Nat.lt_of_succ_lt_succ hi)

/-- With at most 256 centroids the `u8` truncation is the identity, so the
returned byte is exactly the least distance-minimal index. -/
theorem get_closest_centroid_bounded (centroids : List (List ℚ)) (subvector : List ℚ)
    (hne : centroids ≠ []) (hle : centroids.length ≤ 256) :
    ∃ j : Fin centroids.length,
      get_closest_centroid centroids subvector = j.val
      ∧ (∀ i : Fin centroids.length,
          l2sq_dist (centroids.get j) subvector ≤ l2sq_dist (centroids.get i) subvector)
      ∧ (∀ i : Fin centroids.length, i.val < j.val →
          l2sq_dist (centroids.get j) subvector < l2sq_dist (centroids.get i) subvector) := by
  rcases get_closest_centroid_argmin centroids subvector hne with ⟨j, hres, hmin, hleast⟩
  refine ⟨j, ?_, hmin, hleast⟩
  rw [hres, Nat.mod_eq_of_lt (lt_of_lt_of_le j.isLt hle)]

/-- `getD` of a mapped range at an in-bounds index. -/
lemma getD_map_range (splits : ℕ) (f : ℕ → ℕ) (i : ℕ) (hi : i < splits) :
    ((List.range splits).map f).getD i 0 = f i := by
  simp only [List.getD_eq_getElem?_getD, List.getElem?_map, List.getElem?_range, hi]
  simp [hi]

/-- C2 (amended): for every dataset item and every codebook whose segments
each hold between 1 and 256 centroids, the record emitted by
`compress_vectors` carries, for each segment `i`, the index of a centroid of
minimal squared distance to the segment's sub-vector, and the least such
index when several centroids tie. -/
theorem compress_vectors_optimal (dataset : List DatasetItem)
    (vector_dim subvector_dim splits : ℕ) (codebooks : ℕ → List (List ℚ))
    (hne : ∀ i, i < splits → 1 ≤ (codebooks i).length)
    (hle : ∀ i, i < splits → (codebooks i).length ≤ 256)
    (x : DatasetItem) (hx : x ∈ dataset) :
    ∃ rec ∈ compress_vectors dataset vector_dim subvector_dim splits codebooks,
      rec.1 = x.id ∧ rec.2.length = splits
      ∧ ∀ i, i < splits →
          ∃ j : Fin (codebooks i).length,
            rec.2.getD i 0 = j.val
            ∧ (∀ m : Fin (codebooks i).length,
                l2sq_dist ((codebooks i).get j)
                    (subvector_slice x.vec vector_dim subvector_dim i)
                  ≤ l2sq_dist ((codebooks i).get m)
                    (subvector_slice x.vec vector_dim subvector_dim i))
            ∧ (∀ m : Fin (codebooks i).length, m.val < j.val →
                l2sq_dist ((codebooks i).get j)
                    (subvector_slice x.vec vector_dim subvector_dim i)
                  < l2sq_dist ((codebooks i).get m)
                    (subvector_slice x.vec vector_dim subvector_dim i)) := by
  refine ⟨(x.id, (List.range splits).map fun i =>
      get_closest_centroid (codebooks i) (subvector_slice x.vec vector_dim subvector_dim i)),
    List.mem_map_of_mem _ hx, rfl, by rw [List.length_map, List.length_range], ?_⟩
  intro i hi
  have hgd := getD_map_range splits
    (fun i => get_closest_centroid (codebooks i) (subvector_slice x.vec vector_dim subvector_dim i))
    i hi
  rw [hgd]
  have hne' : codebooks i ≠ [] := List.length_pos.mp (hne i hi)
  exact get_closest_centroid_bounded (codebooks i)
    (subvector_slice x.vec vector_dim subvector_dim i) hne' (hle i hi)

/-- Witness for C2 (amended): a 2-centroid single-segment codebook. -/
theorem compress_vectors_optimal_witness :
    (∀ i, i < 1 → 1 ≤ (cbPair i).length)
    ∧ (∀ i, i < 1 → (cbPair i).length ≤ 256)
    ∧ itemA ∈ [itemA]
    ∧ ∃ rec ∈ compress_vectors [itemA] 1 1 1 cbPair,
        rec.1 = itemA.id ∧ rec.2.length = 1
        ∧ ∀ i, i < 1 →
            ∃ j : Fin (cbPair i).length,
              rec.2.getD i 0 = j.val
              ∧ (∀ m : Fin (cbPair i).length,
                  l2sq_dist ((cbPair i).get j) (subvector_slice itemA.vec 1 1 i)
                    ≤ l2sq_dist ((cbPair i).get m) (subvector_slice itemA.vec 1 1 i))
              ∧ (∀ m : Fin (cbPair i).length, m.val < j.val →
                  l2sq_dist ((cbPair i).get j) (subvector_slice itemA.vec 1 1 i)
                    < l2sq_dist ((cbPair i).get m) (subvector_slice itemA.vec 1 1 i)) :=
  ⟨by decide, by decide, List.mem_singleton.mpr rfl,
    compress_vectors_optimal [itemA] 1 1 1 cbPair (by decide) (by decide) itemA
      (List.mem_singleton.mpr rfl)⟩

/-- The 257-centroid codebook has 257 segments entries. -/
lemma codebook257_length : (codebook257 0).length = 257 := by
  unfold codebook257
  rw [List.length_map, List.length_range]

/-- The 257-centroid codebook is non-empty. -/
lemma codebook257_ne_nil : codebook257 0 ≠ [] :=
  List.length_pos.mp (by rw [codebook257_length]; omega)

/-- The centroid at index `j` of the 257-centroid codebook is `[j]`. -/
lemma codebook257_get (j : Fin (codebook257 0).length) :
    (codebook257 0).get j = [(j.val : ℚ)] := by
  rcases j with ⟨t, ht⟩
  show ((List.range 257).map fun j : ℕ => [(j : ℚ)]).get ⟨t, ht⟩ = [(t : ℚ)]
  simp only [List.get_eq_getElem, List.getElem_map, List.getElem_range]

/-- The centroid at index `256` of the 257-centroid codebook. -/
lemma codebook257_getD_256 : (codebook257 0).getD 256 [] = [(256 : ℚ)] := by
  show ((List.range 257).map fun j : ℕ => [(j : ℚ)]).getD 256 [] = [(256 : ℚ)]
  simp only [List.getD_eq_getElem?_getD, List.getElem?_map, List.getElem?_range]
  norm_num

/-- The centroid at index `0` of the 257-centroid codebook. -/
lemma codebook257_getD_0 : (codebook257 0).getD 0 [] = [(0 : ℚ)] := by
  show ((List.range 257).map fun j : ℕ => [(j : ℚ)]).getD 0 [] = [(0 : ℚ)]
  simp only [List.getD_eq_getElem?_getD, List.getElem?_map, List.getElem?_range]
  norm_num

/-- C2 counterexample: with 257 centroids `[0] .. [256]` in one segment and
input vector `[256]`, the unique closest centroid is at index 256, but
`idx as u8` wraps and the emitted byte is `0`, whose centroid `[0]` has
strictly larger distance than centroid `[256]` — the emitted byte is not the
index of a distance-minimal centroid. -/
theorem compress_vectors_u8_wraparound :
    compress_vectors [⟨"a", [(256 : ℚ)]⟩] 1 1 1 codebook257 = [("a", [0])]
    ∧ (codebook257 0).getD 0 [] = [(0 : ℚ)]
    ∧ (codebook257 0).getD 256 [] = [(256 : ℚ)]
    ∧ l2sq_dist [(256 : ℚ)] [(256 : ℚ)] < l2sq_dist [(0 : ℚ)] [(256 : ℚ)] := by
  have hkey : get_closest_centroid (codebook257 0) [(256 : ℚ)] = 0 := by
    rcases get_closest_centroid_argmin (codebook257 0) [(256 : ℚ)] codebook257_ne_nil
      with ⟨j, hres, hmin, hleast⟩
    have h256lt : (256 : ℕ) < (codebook257 0).length := by rw [codebook257_length]; omega
    have hd256 : l2sq_dist ((codebook257 0).get ⟨256, h256lt⟩) [(256 : ℚ)] = 0 := by
      rw [codebook257_get ⟨256, h256lt⟩, l2sq_dist_single]
      norm_num
    have hmin256 := hmin ⟨256, h256lt⟩
    rw [hd256] at hmin256
    have hdj := le_antisymm hmin256 (l2sq_dist_nonneg _ _)
    rw [codebook257_get j, l2sq_dist_single] at hdj
    have hzero := mul_self_eq_zero.mp hdj
    have hcast : (j.val : ℚ) = 256 := by linarith
    have hjval : j.val = 256 := by exact_mod_cast hcast
    rw [hres, hjval]
  have hexp : compress_vectors [⟨"a", [(256 : ℚ)]⟩] 1 1 1 codebook257
      = [("a", [get_closest_centroid (codebook257 0) [(256 : ℚ)]])] := rfl
  refine ⟨?_, codebook257_getD_0, codebook257_getD_256, ?_⟩
  · rw [hexp, hkey]
  · rw [l2sq_dist_single, l2sq_dist_single]
    norm_num

/-- C8: whenever every one of the `splits` segments of the codebook has
between 1 and 256 centroids, every record produced by `compress_vectors` has
a code vector of length exactly `splits`, and each code byte is strictly
below the centroid count of its segment. -/
theorem compress_vectors_code_invariant (dataset : List DatasetItem)
    (vector_dim subvector_dim splits : ℕ) (codebooks : ℕ → List (List ℚ))
    (hne : ∀ i, i < splits → 1 ≤ (codebooks i).length)
    (hle : ∀ i, i < splits → (codebooks i).length ≤ 256) :
    ∀ rec ∈ compress_vectors dataset vector_dim subvector_dim splits codebooks,
      rec.2.length = splits
      ∧ ∀ i, i < splits → rec.2.getD i 0 < (codebooks i).length := by
  intro rec hrec
  rcases List.mem_map.mp hrec with ⟨x, hx, rfl⟩
  refine ⟨by rw [List.length_map, List.length_range], ?_⟩
  intro i hi
  have hgd := getD_map_range splits
    (fun i =>
      let split_centroids := codebooks i
      let start_index := i * subvector_dim
      let end_index := min (start_index + subvector_dim) vector_dim
      get_closest_centroid split_centroids ((x.vec.take end_index).drop start_index))
    i hi
  rw [hgd]
  show get_closest_centroid (codebooks i)
      ((x.vec.take (min (i * subvector_dim + subvector_dim) vector_dim)).drop
        (i * subvector_dim)) < (codebooks i).length
  have hne' : codebooks i ≠ [] := List.length_pos.mp (hne i hi)
  rcases get_closest_centroid_bounded (codebooks i)
      ((x.vec.take (min (i * subvector_dim + subvector_dim) vector_dim)).drop
        (i * subvector_dim)) hne' (hle i hi) with ⟨j, hres, _, _⟩
  rw [hres]
  exact j.isLt

/-- Witness for C8: the spec's Scenario B — 2 segments of 4 centroids each,
vector dimension 8, subvector dimension 4. -/
theorem compress_vectors_code_invariant_witness :
    (∀ i, i < 2 → 1 ≤ (cbB i).length)
    ∧ (∀ i, i < 2 → (cbB i).length ≤ 256)
    ∧ ∀ rec ∈ compress_vectors [itemB] 8 4 2 cbB,
        rec.2.length = 2 ∧ ∀ i, i < 2 → rec.2.getD i 0 < (cbB i).length :=
  ⟨by decide, by decide,
    compress_vectors_code_invariant [itemB] 8 4 2 cbB (by decide) (by decide)⟩

/-- The filtering loop builds exactly the non-null, non-blank payloads (and
their row ids) in input order. -/
lemma collectInputs_eq_filterMap (rows : List (String × Option String)) :
    collectInputs rows
      = (rows.filterMap (fun row =>
            match row.2 with
            | some s => if nonblank s then some s else none
            | none => none),
         rows.filterMap (fun row =>
            match row.2 with
            | some s => if nonblank s then some row.1 else none
            | none => none)) := by
  suffices hgen : ∀ (rows : List (String × Option String)) (acc : List String × List String),
      rows.foldl
        (fun acc row =>
          match row.2 with
          | some src_data =>
            if nonblank src_data then (acc.1 ++ [src_data], acc.2 ++ [row.1]) else acc
          | none => acc) acc
      = (acc.1 ++ rows.filterMap (fun row =>
            match row.2 with
            | some s => if nonblank s then some s else none
            | none => none),
         acc.2 ++ rows.filterMap (fun row =>
            match row.2 with
            | some s => if nonblank s then some row.1 else none
            | none => none)) by
    have h := hgen rows ([], [])
    simpa [collectInputs] using h
  intro rows
  induction rows with
  | nil => intro acc; simp
  | cons row rest ih =>
    intro acc
    rcases row with ⟨rid, payload⟩
    rcases payload with _ | s
    · simpa using ih acc
    · by_cases hb : nonblank s
      · simp only [List.foldl_cons, hb, if_true, List.filterMap_cons]
        rw [ih]
        simp
      · simp only [List.foldl_cons, hb, if_false, List.filterMap_cons]
        rw [ih]
        simp [hb]

/-- As many ids as texts are collected. -/
lemma collectInputs_length_eq (rows : List (String × Option String)) :
    (collectInputs rows).2.length = (collectInputs rows).1.length := by
  rw [collectInputs_eq_filterMap]
  induction rows with
  | nil => rfl
  | cons row rest ih =>
    rcases row with ⟨rid, payload⟩
    rcases payload with _ | s
    · simpa using ih
    · by_cases hb : nonblank s
      · simp only [List.filterMap_cons, hb, if_true]
        simpa using ih
      · simp only [List.filterMap_cons, hb, if_false]
        simpa using ih

/-- The pop loop over two equal-length lists pairs each id with its own
vector and emits them back-to-front. -/
lemma popPairs_spec : ∀ (n : ℕ) (input_ids : List String) (embeddings : List (List ℚ))
    (response_data : List EmbeddingRecord),
    input_ids.length = n → embeddings.length = n →
    popPairs n input_ids embeddings response_data
      = some (response_data ++ (input_ids.zip embeddings).reverse) := by
  intro n
  induction n with
  | zero =>
    intro ids embs acc h1 h2
    obtain rfl := List.length_eq_zero.mp h1
    obtain rfl := List.length_eq_zero.mp h2
    simp [popPairs]
  | succ n ih =>
    intro ids embs acc h1 h2
    rcases ids.eq_nil_or_concat with rfl | ⟨L, i, hL⟩
    · simp at h1
    · rcases embs.eq_nil_or_concat with rfl | ⟨M, e, hM⟩
      · simp at h2
      · rw [List.concat_eq_append] at hL hM
        subst hL
        subst hM
        have hL1 : L.length = n := by simpa using h1
        have hM1 : M.length = n := by simpa using h2
        simp only [popPairs, List.getLast?_concat, List.dropLast_concat]
        rw [ih L M (acc ++ [(i, e)]) hL1 hM1]
        rw [List.zip_append (hL1.trans hM1.symm)]
        simp

/-- C7: for every input batch, the embedding worker submits exactly the rows
with non-null, non-blank payload, in input order; and — given one result
vector per submitted text — it emits exactly one record per submitted row,
pairing ids with vectors by popping both lists from the back, so the emitted
intra-batch order is the reverse of the submitted order; filtered-out rows
produce no record and no error. -/
theorem embedding_worker_batch_spec (rows : List (String × Option String))
    (embeddings : List (List ℚ))
    (h : embeddings.length = (collectInputs rows).1.length) :
    (collectInputs rows).1 = rows.filterMap (fun row =>
        match row.2 with
        | some s => if nonblank s then some s else none
        | none => none)
    ∧ (collectInputs rows).2 = rows.filterMap (fun row =>
        match row.2 with
        | some s => if nonblank s then some row.1 else none
        | none => none)
    ∧ embedding_worker_batch rows embeddings
      = some (((collectInputs rows).2.zip embeddings).reverse) := by
  refine ⟨by rw [collectInputs_eq_filterMap], by rw [collectInputs_eq_filterMap], ?_⟩
  have hun : embedding_worker_batch rows embeddings
      = if (collectInputs rows).1.length = 0 then some []
        else popPairs embeddings.length (collectInputs rows).2 embeddings [] := rfl
  rw [hun]
  by_cases hz : (collectInputs rows).1.length = 0
  · rw [if_pos hz]
    obtain rfl : embeddings = [] := List.length_eq_zero.mp (by omega)
    simp
  · rw [if_neg hz]
    have hids : (collectInputs rows).2.length = embeddings.length := by
      rw [collectInputs_length_eq]
      omega
    rw [popPairs_spec embeddings.length _ _ [] hids rfl]
    simp

/-- Witness for C7: a batch with one NULL payload and one whitespace-only
payload; two vectors come back for the two submitted texts, and the two
emitted records appear in reverse order. -/
theorem embedding_worker_batch_spec_witness :
    (([[], []] : List (List ℚ)).length = (collectInputs rowsW).1.length)
    ∧ ((collectInputs rowsW).1 = rowsW.filterMap (fun row =>
          match row.2 with
          | some s => if nonblank s then some s else none
          | none => none)
      ∧ (collectInputs rowsW).2 = rowsW.filterMap (fun row =>
          match row.2 with
          | some s => if nonblank s then some row.1 else none
          | none => none)
      ∧ embedding_worker_batch rowsW [[], []]
        = some (((collectInputs rowsW).2.zip ([[], []] : List (List ℚ))).reverse)) :=
  ⟨by decide, embedding_worker_batch_spec rowsW [[], []] (by decide)⟩
